import Mathlib

/-!
Verification of `openconnect_gp_okta.py`: a shallow embedding of the
script's pure logic (factor selection, the MFA verify flows, HTML form
extraction, the prelogin pipeline, SAML completion, and the process
supervisor's event trace), together with theorems settling the spec's
claims about it.

External libraries (requests, lxml parsing, pyotp, keyring, the OS) are
modelled as oracles or as already-parsed inputs; everything the script
itself computes is translated directly from the source.
-/

/-! ## Multi-factor data model (`okta_auth`, source lines 68-126) -/

/-- One MFA factor as enumerated by the server in an `MFA_REQUIRED`
response: `factorType`, the verify URL from `_links.verify.href`, and the
provider/vendor metadata used in prompts. -/
structure Factor where
  factorType : String
  verifyUrl : String := ""
  provider : String := ""
  vendorName : String := ""
deriving Repr, DecidableEq

/-- The priority key of source lines 83-86:
`{'token:software:totp': 2 if totp_key is None else 0, 'push': 1}.get(factor['factorType'], 2)`. -/
def priority (totpKey : Option String) (f : Factor) : Nat :=
  if f.factorType == "token:software:totp" then
    (if totpKey.isNone then 2 else 0)
  else if f.factorType == "push" then 1
  else 2

/-- `re.match('token(?::|$)', factorType)` of source line 107: the type is
exactly `token`, or starts with `token:`.  (Python's `$` also matches just
before a single trailing newline, hence the last alternative.) -/
def isTokenType (s : String) : Bool :=
  s == "token" || "token:".toList.isPrefixOf s.toList || s == "token\n"

/-- A factor the `for` loop of source lines 88-121 can handle: one of the
three branch guards (`push`, `sms`, token-shaped) matches. -/
def isSupported (f : Factor) : Bool :=
  f.factorType == "push" || f.factorType == "sms" || isTokenType f.factorType

/-- The comparison realising Python's `sorted(..., key=p)`: a stable sort
by key `p` is exactly a sort by the lexicographic order on
(key, original position), so we sort the enumerated list by that order. -/
def lexLe (p : α → Nat) (a b : Nat × α) : Bool :=
  Nat.blt (p a.2) (p b.2) || (Nat.beq (p a.2) (p b.2) && Nat.ble a.1 b.1)

/-- Ordered insertion with respect to `lexLe`. -/
def insortLex (p : α → Nat) (x : Nat × α) : List (Nat × α) → List (Nat × α)
  | [] => [x]
  | y :: ys => if lexLe p x y then x :: y :: ys else y :: insortLex p x ys

/-- Insertion sort with respect to `lexLe`.  Because `lexLe` is a total
order whose second component (the original position) is distinct across
the enumerated list, any correct sort by it is unique, so this agrees
with Python's Timsort. -/
def sortLex (p : α → Nat) : List (Nat × α) → List (Nat × α)
  | [] => []
  | x :: xs => insortLex p x (sortLex p xs)

/-- Python's `sorted(l, key=p)` (source line 88): stable sort by key. -/
def pySorted (p : α → Nat) (l : List α) : List α :=
  (sortLex p l.enum).map Prod.snd

/-- The factor the loop of source lines 88-121 commits to: the first
factor, in `sorted(factors, key=priority)` order, whose type one of the
branch guards matches.  `none` when the loop falls through to the
`else: raise` of line 122. -/
def selectFactor (totpKey : Option String) (factors : List Factor) : Option Factor :=
  (pySorted (priority totpKey) factors).find? isSupported

/-! ## Verify flows (source lines 89-121) -/

/-- One response of the Okta authn API, with the JSON fields the script
reads: `status`, `stateToken`, `sessionToken`, `factorResult`,
`_embedded.factors`. -/
structure OktaResponse where
  status : String
  stateToken : String := ""
  sessionToken : String := ""
  factorResult : Option String := none
  factors : List Factor := []
deriving Repr, DecidableEq

/-- The JSON body of one POST to a factor's verify endpoint, minus the
`context.deviceToken` field `post_json` merges into every body. -/
structure VerifyBody where
  stateToken : String
  rememberDevice : Option Bool := none
  passCode : Option String := none
deriving Repr, DecidableEq

/-- The push polling loop of source lines 92-98, run against a scripted
list of server responses (one response per POST).  Returns the verify
bodies sent and the first non-`MFA_CHALLENGE` response; `none` models an
`AssertionError` (`factorResult != 'WAITING'` inside a challenge) or a
script too short for the loop. -/
def pushVerifyLoop (tok : String) : List OktaResponse → Option (List VerifyBody × OktaResponse)
  | [] => none
  | r :: rest =>
    if r.status == "MFA_CHALLENGE" then
      if r.factorResult == some "WAITING" then
        match pushVerifyLoop r.stateToken rest with
        | some (bs, fin) => some ({ stateToken := tok, rememberDevice := some true } :: bs, fin)
        | none => none
      else none
    else some ([{ stateToken := tok, rememberDevice := some true }], r)

/-- The sms branch of source lines 100-106: POST `{stateToken}`, assert
`MFA_CHALLENGE`, prompt for the code (the prompt is an oracle, `code`),
POST `{stateToken, passCode}`.  Consumes two scripted responses. -/
def smsVerify (tok code : String) : List OktaResponse → Option (List VerifyBody × OktaResponse)
  | r1 :: r2 :: _ =>
    if r1.status == "MFA_CHALLENGE" then
      some ([{ stateToken := tok }, { stateToken := r1.stateToken, passCode := some code }], r2)
    else none
  | _ => none

/-- The token branch of source lines 107-121: POST `{stateToken}`, assert
`MFA_CHALLENGE`, obtain a one-time code (TOTP derivation or prompt, both
external, abstracted as `code`), POST `{stateToken, passCode}`. -/
def tokenVerify (tok code : String) : List OktaResponse → Option (List VerifyBody × OktaResponse)
  | r1 :: r2 :: _ =>
    if r1.status == "MFA_CHALLENGE" then
      some ([{ stateToken := tok }, { stateToken := r1.stateToken, passCode := some code }], r2)
    else none
  | _ => none

/-- The failures `okta_auth` can raise (besides HTTP errors, which the
oracle responses abstract): the `raise Exception('No supported
authentication factors')` of line 123 and the `assert` failures. -/
inductive AuthError where
  | noSupportedFactor
  | protocolAssertion
deriving Repr, DecidableEq

deriving instance DecidableEq for Except

/-- `okta_auth` (source lines 68-126) after the primary-auth POST: `r` is
the primary response, `script` the remaining scripted verify responses,
`code` the prompted/derived one-time code.  Returns the outcome and the
trace of verify bodies POSTed. -/
def okta_auth (totpKey : Option String) (code : String) (r : OktaResponse)
    (script : List OktaResponse) : Except AuthError String × List VerifyBody :=
  if r.status == "MFA_REQUIRED" then
    match selectFactor totpKey r.factors with
    | none => (.error .noSupportedFactor, [])
    | some f =>
      let step :=
        if f.factorType == "push" then pushVerifyLoop r.stateToken script
        else if f.factorType == "sms" then smsVerify r.stateToken code script
        else tokenVerify r.stateToken code script
      match step with
      | none => (.error .protocolAssertion, [])
      | some (bs, fin) =>
        if fin.status == "SUCCESS" then (.ok fin.sessionToken, bs)
        else (.error .protocolAssertion, bs)
  else if r.status == "SUCCESS" then (.ok r.sessionToken, [])
  else (.error .protocolAssertion, [])

/-! ## HTML form extraction (`extract_form`, source lines 41-46) -/

/-- An HTML element as lxml produces it: tag, attribute dictionary,
child elements.  (Text nodes play no role in `extract_form`.) -/
inductive Html where
  | elem (tag : String) (attrs : List (String × String)) (children : List Html)

/-- The element's tag. -/
def Html.tag : Html → String
  | .elem t _ _ => t

/-- The element's attribute list (lxml keeps the first occurrence of a
repeated attribute, so lookup is first-match). -/
def Html.attrs : Html → List (String × String)
  | .elem _ a _ => a

/-- The element's children, in document order. -/
def Html.children : Html → List Html
  | .elem _ _ c => c

/-- `element.attrib[k]` as a partial lookup: `attrib` is a dict, absent
keys raise `KeyError`. -/
def getAttr (attrs : List (String × String)) (k : String) : Option String :=
  (attrs.find? (fun kv => kv.1 == k)).map Prod.snd

/-- Document-order (pre-order) search of a list of subtrees for the
first element with the given tag. -/
def findTagList (t : String) : List Html → Option Html
  | [] => none
  | Html.elem tg ats cs :: rest =>
    if tg == t then some (Html.elem tg ats cs)
    else
      match findTagList t cs with
      | some h => some h
      | none => findTagList t rest

/-- `tree.find('.//form')` of source line 42: the first `form` element in
document order among the root's proper descendants. -/
def findForm (doc : Html) : Option Html :=
  findTagList "form" doc.children

/-- `form.findall('input')` of source line 45: the *direct* children of
the form whose tag is `input`, in document order. -/
def directInputs (form : Html) : List Html :=
  form.children.filter (fun c => c.tag == "input")

/-- Python dict insertion: an existing key keeps its position but gets
the new value; a new key is appended. -/
def dinsert : List (String × String) → String → String → List (String × String)
  | [], k, v => [(k, v)]
  | (k', v') :: rest, k, v =>
    if k' == k then (k', v) :: rest else (k', v') :: dinsert rest k v

/-- Python dict lookup (`d[k]` / `k in d`): `dinsert` keeps keys unique,
so first match is the binding. -/
def dictGet (m : List (String × String)) (k : String) : Option String :=
  (m.find? (fun kv => kv.1 == k)).map Prod.snd

/-- The dict comprehension of source line 45, folded left to right over
the form's direct inputs: each step reads `inp.attrib['name']` and
`inp.attrib['value']` (both partial) and inserts the pair. -/
def inputsDict (acc : List (String × String)) : List Html → Option (List (String × String))
  | [] => some acc
  | inp :: rest =>
    match getAttr inp.attrs "name", getAttr inp.attrs "value" with
    | some n, some v => inputsDict (dinsert acc n v) rest
    | _, _ => none

/-- `extract_form` (source lines 41-46): the first form's `action`
attribute and the name-to-value dict of its direct inputs.  `none`
models the exceptions: no form found, `action` missing, or an input
missing `name` or `value`. -/
def extract_form (doc : Html) : Option (String × List (String × String)) := do
  let form ← findForm doc
  let action ← getAttr form.attrs "action"
  let fields ← inputsDict [] (directInputs form)
  some (action, fields)

/-! ## Prelogin pipeline (`check`, `prelogin`, source lines 36-56) -/

/-- `check` (source lines 36-38): `raise_for_status` raises on an HTTP
error status; `ok` abstracts "no HTTP error". -/
def check (ok : Bool) : Option Unit :=
  if ok then some () else none

/-- An XML element as lxml produces it: tag, text content, children. -/
inductive Xml where
  | elem (tag : String) (text : Option String) (children : List Xml)

/-- The element's tag. -/
def Xml.tag : Xml → String
  | .elem t _ _ => t

/-- The element's text content (`None` for an empty element). -/
def Xml.text : Xml → Option String
  | .elem _ t _ => t

/-- The element's children. -/
def Xml.children : Xml → List Xml
  | .elem _ _ c => c

/-- `tree.find('saml-request')`-style lookup: first *direct* child with
the given tag. -/
def findChildXml (x : Xml) (t : String) : Option Xml :=
  x.children.find? (fun c => c.tag == t)

/-- The six-bit value of one base64 alphabet character. -/
def b64Val (c : Char) : Option Nat :=
  if 65 ≤ c.toNat ∧ c.toNat ≤ 90 then some (c.toNat - 65)
  else if 97 ≤ c.toNat ∧ c.toNat ≤ 122 then some (c.toNat - 71)
  else if 48 ≤ c.toNat ∧ c.toNat ≤ 57 then some (c.toNat + 4)
  else if c = '+' then some 62
  else if c = '/' then some 63
  else none

/-- Decode a list of six-bit values (a multiple of four minus 0-2
padding positions) into bytes. -/
def b64Group : List Nat → List Nat
  | a :: b :: c :: d :: rest =>
    (a * 4 + b / 16) :: ((b % 16) * 16 + c / 4) :: ((c % 4) * 64 + d) :: b64Group rest
  | [a, b, c] => [a * 4 + b / 16, (b % 16) * 16 + c / 4]
  | [a, b] => [a * 4 + b / 16]
  | _ => []

/-- Modelled from the spec: `base64.b64decode` (Python standard library,
not part of this repository) as used at source line 51 — characters
outside the alphabet are discarded, the kept text must be a multiple of
four characters with at most two trailing `=` of padding, and the
quartets decode to bytes; any violation raises, modelled as `none`. -/
def b64decode (s : String) : Option (List Nat) :=
  let kept := s.toList.filter (fun c => (b64Val c).isSome || c == '=')
  if kept.length % 4 != 0 then none
  else
    let core := kept.takeWhile (fun c => c != '=')
    let pad := kept.drop core.length
    if pad.all (fun c => c == '=') && pad.length ≤ 2 then
      some (b64Group (core.filterMap b64Val))
    else none

/-- UTF-8 encoding of one code point. -/
def utf8Enc (n : Nat) : List Nat :=
  if n < 128 then [n]
  else if n < 2048 then [192 + n / 64, 128 + n % 64]
  else if n < 65536 then [224 + n / 4096, 128 + (n / 64) % 64, 128 + n % 64]
  else [240 + n / 262144, 128 + (n / 4096) % 64, 128 + (n / 64) % 64, 128 + n % 64]

/-- `str.encode()`: the UTF-8 bytes of a string. -/
def utf8Bytes (s : String) : List Nat :=
  (s.toList.map (fun c => utf8Enc c.toNat)).flatten

/-- Bytes `urllib.parse.quote_plus` leaves unescaped: ASCII alphanumerics
and `_`, `.`, `-`, `~`. -/
def isUrlSafe (n : Nat) : Bool :=
  (48 ≤ n && n ≤ 57) || (65 ≤ n && n ≤ 90) || (97 ≤ n && n ≤ 122) ||
    n == 95 || n == 46 || n == 45 || n == 126

/-- An uppercase hexadecimal digit. -/
def hexDigit (n : Nat) : Char :=
  if n < 10 then Char.ofNat (48 + n) else Char.ofNat (55 + n)

/-- `quote_plus` on one byte: space becomes `+`, safe bytes pass
through, everything else is percent-encoded. -/
def quotePlusByte (n : Nat) : List Char :=
  if n == 32 then ['+']
  else if isUrlSafe n then [Char.ofNat n]
  else ['%', hexDigit (n / 16), hexDigit (n % 16)]

/-- Modelled from the spec: `urllib.parse.quote_plus` (Python standard
library, not part of this repository) over the string's UTF-8 bytes. -/
def quotePlus (s : String) : String :=
  String.mk (((utf8Bytes s).map quotePlusByte).flatten)

/-- Modelled from the spec: `urllib.parse.urlencode` (Python standard
library, not part of this repository) as used at source line 56 — the
dict's items, in insertion order, as `key=value` pairs quoted with
`quote_plus` and joined with `&`. -/
def urlencode (fields : List (String × String)) : String :=
  String.intercalate "&" (fields.map (fun kv => quotePlus kv.1 ++ "=" ++ quotePlus kv.2))

/-- The gateway's answer to the prelogin POST: `ok` abstracts the HTTP
status check, `xml` the lxml parse of the body (`none` = parse failure). -/
structure PreloginResponse where
  ok : Bool
  xml : Option Xml

/-- `prelogin` (source lines 49-56): check the HTTP status, find the
`saml-request` element, base64-decode its text, parse the decoded HTML
(`parseHtml` abstracts lxml), extract the first form, require a
`SAMLRequest` field, and return `action?query-encoded-fields`. -/
def prelogin (parseHtml : List Nat → Option Html) (r : PreloginResponse) : Option String := do
  let _ ← check r.ok
  let x ← r.xml
  let el ← findChildXml x "saml-request"
  let txt ← el.text
  let bytes ← b64decode txt
  let html ← parseHtml bytes
  let af ← extract_form html
  if (dictGet af.2 "SAMLRequest").isSome then
    some (af.1 ++ "?" ++ urlencode af.2)
  else none

/-! ## SAML completion (`complete_saml`, source lines 154-158) -/

/-- The response to the final SAML form POST: `ok` abstracts the HTTP
status check, `headers` the response header map. -/
structure SamlResponse where
  ok : Bool
  headers : List (String × String)

/-- `r.headers[k]`: partial header lookup. -/
def headerGet (hs : List (String × String)) (k : String) : Option String :=
  (hs.find? (fun kv => kv.1 == k)).map Prod.snd

/-- `complete_saml` (source lines 154-158): check the HTTP status and
read the `saml-username` and `prelogin-cookie` headers, both required. -/
def complete_saml (r : SamlResponse) : Option (String × String) := do
  let _ ← check r.ok
  let u ← headerGet r.headers "saml-username"
  let c ← headerGet r.headers "prelogin-cookie"
  some (u, c)

/-! ## Process supervisor (`signal_mask`, `signal_handler`,
`popen_forward_sigterm`, `main`, source lines 161-239) -/

/-- The observable events of the supervised region, in the order the
source performs them. -/
inductive Ev where
  | blockSig
  | spawnChild (childMaskRestored : Bool)
  | installForward
  | setMaskOld
  | writeStdin (bytes : List Nat)
  | closeStdin
  | waitChild
  | reblockSig
  | restoreHandler
  | restoreMaskFinal
  | sigArrive
deriving Repr, DecidableEq

/-- The event trace of `popen_forward_sigterm` (source lines 181-196)
around a region body: block SIGTERM; spawn the child with `preexec_fn`
restoring the pre-block mask inside the child; install the forwarding
SIGTERM handler; restore (unblock) the parent's mask; run the body;
close the child's stdin; wait for it; then unwind the three context
managers in reverse order. -/
def supervisorTrace (body : List Ev) : List Ev :=
  [.blockSig, .spawnChild true, .installForward, .setMaskOld] ++ body ++
    [.closeStdin, .waitChild, .reblockSig, .restoreHandler, .restoreMaskFinal]

/-- The parent process's signal-relevant state: whether SIGTERM is
blocked, whether the forwarding handler is installed, whether a SIGTERM
is pending, whether the child has received a terminate request, and
whether SIGTERM was ever acted on without the forwarding handler. -/
structure SigState where
  termBlocked : Bool
  forwardInstalled : Bool
  pending : Bool
  childTerminated : Bool
  defaultFired : Bool
deriving Repr, DecidableEq

/-- Delivery of a (no longer blocked) SIGTERM: the installed handler
forwards `terminate()` to the child; without it the default action
fires in the parent. -/
def deliver (s : SigState) : SigState :=
  if s.forwardInstalled then { s with childTerminated := true, pending := false }
  else { s with defaultFired := true, pending := false }

/-- POSIX signal semantics for one SIGTERM over the event trace: a
signal arriving while blocked stays pending and is delivered when the
mask is cleared. -/
def sigStep (s : SigState) : Ev → SigState
  | .blockSig => { s with termBlocked := true }
  | .setMaskOld =>
    let s' : SigState := { s with termBlocked := false }
    if s'.pending then deliver s' else s'
  | .reblockSig => { s with termBlocked := true }
  | .restoreMaskFinal =>
    let s' : SigState := { s with termBlocked := false }
    if s'.pending then deliver s' else s'
  | .installForward => { s with forwardInstalled := true }
  | .restoreHandler => { s with forwardInstalled := false }
  | .sigArrive => if s.termBlocked then { s with pending := true } else deliver s
  | _ => s

/-- The state before the supervised region: SIGTERM unblocked, default
handler, nothing pending. -/
def sigInit : SigState :=
  { termBlocked := false, forwardInstalled := false, pending := false,
    childTerminated := false, defaultFired := false }

/-- Run the signal semantics over a trace. -/
def sigRun (evs : List Ev) : SigState :=
  evs.foldl sigStep sigInit

/-- Insert an event at position `i` of a trace (the asynchronous arrival
of a SIGTERM between two syscalls). -/
def insertEv (i : Nat) (e : Ev) (l : List Ev) : List Ev :=
  l.take i ++ e :: l.drop i

/-- The payloads written to the child's stdin, in order. -/
def stdinWrites (tr : List Ev) : List (List Nat) :=
  tr.filterMap (fun e => match e with | .writeStdin bs => some bs | _ => none)

/-- The `openconnect` argument vector of source lines 225-235. -/
def subprocessArgs (gateway samlUsername : String) (useSudo : Bool) : List String :=
  let args := ["openconnect", gateway, "--protocol=gp", "--user=" ++ samlUsername,
    "--usergroup=gateway:prelogin-cookie", "--passwd-on-stdin"]
  if useSudo then "sudo" :: args else args

/-- One run of the VPN client child: its argument vector, the event
trace of the supervised region, and the exit code `main` propagates. -/
structure Invocation where
  args : List String
  trace : List Ev
  exitCode : Int

/-- The tail of `main` (source lines 218-239): complete the SAML
exchange, then spawn the VPN client with `--user=<samlUsername>`, write
the prelogin cookie's UTF-8 bytes to its stdin inside the supervised
region, and exit with the child's return code.  `none` = the login
failed and no child is spawned. -/
def mainHandoff (gateway : String) (useSudo : Bool) (r : SamlResponse) (childExit : Int) :
    Option Invocation := do
  let uc ← complete_saml r
  some { args := subprocessArgs gateway uc.1 useSudo,
         trace := supervisorTrace [.writeStdin (utf8Bytes uc.2)],
         exitCode := childExit }

/-! ## Concrete instances used in the spec's examples -/

/-- A software-TOTP factor. -/
def totpFactor : Factor := { factorType := "token:software:totp" }

/-- A push factor. -/
def pushFactor : Factor := { factorType := "push" }

/-- An SMS factor. -/
def smsFactor : Factor := { factorType := "sms" }

/-- A security-question factor: none of the loop's branches handles it. -/
def questionFactor : Factor := { factorType := "question" }

/-- An `MFA_REQUIRED` response with a non-empty list of only unsupported
factors. -/
def c1Resp : OktaResponse :=
  { status := "MFA_REQUIRED", stateToken := "t", factors := [questionFactor] }

/-- An `MFA_CHALLENGE`/`WAITING` polling response. -/
def challengeWaiting (tok : String) : OktaResponse :=
  { status := "MFA_CHALLENGE", stateToken := tok, factorResult := some "WAITING" }

/-- A `SUCCESS` response carrying the session token. -/
def successResp : OktaResponse := { status := "SUCCESS", sessionToken := "tok" }

/-- An `MFA_REQUIRED` response offering exactly the push factor. -/
def pushMfaResp : OktaResponse :=
  { status := "MFA_REQUIRED", stateToken := "t0", factors := [pushFactor] }

/-- Specification-side view of a form's inputs: the (name, value) pairs
in document order, `none` when an input lacks either attribute. -/
def inputPairs : List Html → Option (List (String × String))
  | [] => some []
  | inp :: rest =>
    match getAttr inp.attrs "name", getAttr inp.attrs "value" with
    | some n, some v => (inputPairs rest).map (fun ps => (n, v) :: ps)
    | _, _ => none

/-- Specification-side lookup with last-write-wins: the value of the
*last* pair carrying the given name. -/
def lookupLast (pairs : List (String × String)) (n : String) : Option String :=
  (pairs.reverse.find? (fun kv => kv.1 == n)).map Prod.snd

/-- A form with duplicate input names (the later `x` must win). -/
def c3Form : Html :=
  .elem "form" [("action", "/submit")]
    [.elem "input" [("name", "x"), ("value", "1")] [],
     .elem "input" [("name", "x"), ("value", "2")] [],
     .elem "input" [("name", "y"), ("value", "3")] []]

/-- A document whose first form is `c3Form`. -/
def c3DupDoc : Html := .elem "html" [] [.elem "body" [] [c3Form]]

/-- A document whose first form holds its only input *nested inside a
div*, not as a direct child. -/
def c3NestedDoc : Html :=
  .elem "html" []
    [.elem "form" [("action", "/a")]
      [.elem "div" [] [.elem "input" [("name", "x"), ("value", "1")] []]]]

/-- The decoded-HTML document of the prelogin round trip example. -/
def c4Html : Html :=
  .elem "html" []
    [.elem "form" [("action", "https://idp.example/sso")]
      [.elem "input" [("name", "SAMLRequest"), ("value", "abc")] []]]

/-- The outer XML of the prelogin response: a `saml-request` element
whose text is base64 (`"AAAA"` decodes to three zero bytes). -/
def c4Xml : Xml := .elem "prelogin-response" none [.elem "saml-request" (some "AAAA") []]

/-- A successful prelogin response. -/
def c4Resp : PreloginResponse := { ok := true, xml := some c4Xml }

/-- A SAML completion response carrying both required headers. -/
def c6Resp : SamlResponse :=
  { ok := true, headers := [("saml-username", "alice"), ("prelogin-cookie", "cookie123")] }

/-- A SAML completion response missing the `prelogin-cookie` header. -/
def c6BadResp : SamlResponse :=
  { ok := true, headers := [("saml-username", "alice")] }

/-! ## Lemmas and claim theorems -/

theorem mem_insortLex {p : α → Nat} {x a : Nat × α} {l : List (Nat × α)} :
    a ∈ insortLex p x l ↔ a = x ∨ a ∈ l := by
  induction l with
  | nil => simp [insortLex]
  | cons y ys ih =>
    simp only [insortLex]
    by_cases h : lexLe p x y
    · simp [h]
    · simp [h, List.mem_cons, ih]
      tauto

theorem insortLex_perm (p : α → Nat) (x : Nat × α) (l : List (Nat × α)) :
    (insortLex p x l).Perm (x :: l) := by
  induction l with
  | nil => simp [insortLex]
  | cons y ys ih =>
    simp only [insortLex]
    by_cases h : lexLe p x y
    · simp [h]
    · simp only [h, if_neg, Bool.false_eq_true, not_false_eq_true]
      exact (ih.cons y).trans (List.Perm.swap x y ys)

theorem sortLex_perm (p : α → Nat) (l : List (Nat × α)) : (sortLex p l).Perm l := by
  induction l with
  | nil => simp [sortLex]
  | cons x xs ih => exact (insortLex_perm p x (sortLex p xs)).trans (ih.cons x)

theorem lexLe_total (p : α → Nat) (a b : Nat × α) :
    lexLe p a b = true ∨ lexLe p b a = true := by
  simp [lexLe, Nat.blt_eq, Nat.ble_eq, Nat.beq_eq_true_eq]
  omega

theorem lexLe_trans {p : α → Nat} {a b c : Nat × α}
    (h1 : lexLe p a b = true) (h2 : lexLe p b c = true) : lexLe p a c = true := by
  simp [lexLe, Nat.blt_eq, Nat.ble_eq, Nat.beq_eq_true_eq] at *
  omega

theorem pairwise_insortLex {p : α → Nat} {x : Nat × α} {l : List (Nat × α)}
    (h : l.Pairwise (fun a b => lexLe p a b = true)) :
    (insortLex p x l).Pairwise (fun a b => lexLe p a b = true) := by
  induction l with
  | nil => simp [insortLex]
  | cons y ys ih =>
    rcases List.pairwise_cons.1 h with ⟨hy, hys⟩
    by_cases hx : lexLe p x y
    · simp only [insortLex, hx, if_pos]
      refine List.pairwise_cons.2 ⟨?_, h⟩
      intro b hb
      rcases List.mem_cons.1 hb with rfl | hb
      · exact hx
      · exact lexLe_trans hx (hy b hb)
    · simp only [insortLex, hx, if_neg, Bool.false_eq_true, not_false_eq_true]
      refine List.pairwise_cons.2 ⟨?_, ih hys⟩
      intro b hb
      rcases mem_insortLex.1 hb with rfl | hb
      · rcases lexLe_total p b y with h1 | h1
        · exact absurd h1 hx
        · exact h1
      · exact hy b hb

theorem pairwise_sortLex (p : α → Nat) (l : List (Nat × α)) :
    (sortLex p l).Pairwise (fun a b => lexLe p a b = true) := by
  induction l with
  | nil => simp [sortLex]
  | cons x xs ih => exact pairwise_insortLex ih

theorem find?_pairwise_min {p : α → Nat} {q : Nat × α → Bool} {l : List (Nat × α)}
    (hs : l.Pairwise (fun a b => lexLe p a b = true)) {x : Nat × α}
    (hf : l.find? q = some x) :
    ∀ y ∈ l, q y = true → x = y ∨ lexLe p x y = true := by
  induction l with
  | nil => simp at hf
  | cons a as ih =>
    rcases List.pairwise_cons.1 hs with ⟨ha, has⟩
    intro y hy hqy
    by_cases hq : q a
    · rw [List.find?_cons_of_pos _ hq, Option.some_inj] at hf
      subst hf
      rcases List.mem_cons.1 hy with rfl | hy
      · exact Or.inl rfl
      · exact Or.inr (ha y hy)
    · rw [List.find?_cons_of_neg _ hq] at hf
      rcases List.mem_cons.1 hy with rfl | hy
      · simp [hqy] at hq
      · exact ih has hf y hy hqy

theorem pySorted_perm (p : α → Nat) (l : List α) : (pySorted p l).Perm l := by
  have h := (sortLex_perm p l.enum).map Prod.snd
  rwa [List.enum_map_snd] at h

theorem selectFactor_min (k : Option String) (l : List Factor)
    (h : ∃ f ∈ l, isSupported f = true) :
    ∃ (f : Factor) (i : Nat), selectFactor k l = some f ∧ l[i]? = some f ∧ isSupported f = true ∧
      ∀ (j : Nat) (g : Factor), l[j]? = some g → isSupported g = true →
        priority k f < priority k g ∨ (priority k f = priority k g ∧ i ≤ j) := by
  classical
  obtain ⟨f0, hf0mem, hf0⟩ := h
  obtain ⟨i0, hi0⟩ := List.mem_iff_getElem?.1 hf0mem
  have hperm := sortLex_perm (priority k) l.enum
  have hmap : selectFactor k l =
      Option.map Prod.snd ((sortLex (priority k) l.enum).find? (fun e => isSupported e.2)) := by
    simp only [selectFactor, pySorted, List.find?_map]
    rfl
  have hes : (i0, f0) ∈ sortLex (priority k) l.enum :=
    hperm.mem_iff.2 (List.mk_mem_enum_iff_getElem?.2 hi0)
  have hsome : ((sortLex (priority k) l.enum).find? (fun e => isSupported e.2)).isSome :=
    List.find?_isSome.2 ⟨(i0, f0), hes, by simpa using hf0⟩
  obtain ⟨⟨i, f⟩, hfind⟩ := Option.isSome_iff_exists.1 hsome
  refine ⟨f, i, ?_, ?_, ?_, ?_⟩
  · rw [hmap, hfind]
    rfl
  · exact List.mk_mem_enum_iff_getElem?.1 (hperm.mem_iff.1 (List.mem_of_find?_eq_some hfind))
  · simpa using List.find?_some hfind
  · intro j g hj hg
    have hjs : (j, g) ∈ sortLex (priority k) l.enum :=
      hperm.mem_iff.2 (List.mk_mem_enum_iff_getElem?.2 hj)
    have hmin := find?_pairwise_min (pairwise_sortLex (priority k) l.enum) hfind (j, g) hjs
      (by simpa using hg)
    rcases hmin with heq | hle
    · injection heq with h1 h2
      subst h1
      subst h2
      exact Or.inr ⟨rfl, Nat.le_refl i⟩
    · simpa [lexLe, Nat.blt_eq, Nat.ble_eq, Nat.beq_eq_true_eq] using hle

/-- C1 (amended): in an `MFA_REQUIRED` response whose factor list contains
at least one supported factor, exactly one factor is chosen, by priority
rank — `token:software:totp` ranks highest only with a pre-shared seed
(lowest tier otherwise), `push` ranks in the middle, every other type in
the lowest tier — with ties broken by the server's enumeration order; in
particular totp/push/sms with a seed selects totp, without a seed push,
sms/push selects push, and sms alone selects sms. -/
theorem claim_C1_factor_selection :
    (∀ (k : Option String) (l : List Factor), (∃ f ∈ l, isSupported f = true) →
      ∃ (f : Factor) (i : Nat), selectFactor k l = some f ∧ l[i]? = some f ∧
        isSupported f = true ∧
        ∀ (j : Nat) (g : Factor), l[j]? = some g → isSupported g = true →
          priority k f < priority k g ∨ (priority k f = priority k g ∧ i ≤ j)) ∧
    selectFactor (some "seed") [totpFactor, pushFactor, smsFactor] = some totpFactor ∧
    selectFactor none [totpFactor, pushFactor, smsFactor] = some pushFactor ∧
    selectFactor none [smsFactor, pushFactor] = some pushFactor ∧
    selectFactor none [smsFactor] = some smsFactor :=
  ⟨selectFactor_min, by decide, by decide, by decide, by decide⟩

/-- C1 witness: the general selection statement instantiated at the
one-element list `[pushFactor]`. -/
theorem claim_C1_witness :
    ∃ (f : Factor) (i : Nat), selectFactor none [pushFactor] = some f ∧
      [pushFactor][i]? = some f ∧ isSupported f = true ∧
      ∀ (j : Nat) (g : Factor), [pushFactor][j]? = some g → isSupported g = true →
        priority none f < priority none g ∨ (priority none f = priority none g ∧ i ≤ j) :=
  claim_C1_factor_selection.1 none [pushFactor] ⟨pushFactor, by decide, by decide⟩

/-- C1 counterexample: `c1Resp` is an `MFA_REQUIRED` response with a
non-empty factor list (a lone `question` factor), yet no factor is chosen
and the engine fails — refuting "for every ... non-empty factor list,
exactly one factor is chosen". -/
theorem claim_C1_counterexample :
    c1Resp.status = "MFA_REQUIRED" ∧ c1Resp.factors ≠ [] ∧
    selectFactor none c1Resp.factors = none ∧
    okta_auth none "" c1Resp [] = (.error .noSupportedFactor, []) :=
  ⟨rfl, by decide, by decide, by decide⟩

/-- C5: an `MFA_REQUIRED` response none of whose factors is supported
(push, sms, or token-shaped) makes the engine fail with the
no-supported-factor error and an empty verify-call trace. -/
theorem claim_C5_no_supported_factor :
    ∀ (k : Option String) (c : String) (r : OktaResponse) (script : List OktaResponse),
      r.status = "MFA_REQUIRED" → (∀ f ∈ r.factors, isSupported f = false) →
      okta_auth k c r script = (.error .noSupportedFactor, []) := by
  intro k c r script hst hf
  have hsel : selectFactor k r.factors = none := by
    apply List.find?_eq_none.2
    intro x hx
    simp [hf x ((pySorted_perm (priority k) r.factors).mem_iff.1 hx)]
  simp [okta_auth, hst, hsel]

/-- C5 witness: the empty factor list. -/
theorem claim_C5_witness :
    okta_auth none "" ⟨"MFA_REQUIRED", "t", "", none, []⟩ [] = (.error .noSupportedFactor, []) :=
  claim_C5_no_supported_factor none "" ⟨"MFA_REQUIRED", "t", "", none, []⟩ [] rfl (by decide)

theorem pushVerifyLoop_run (k : Nat) :
    ∀ (t : String) (script : List OktaResponse) (fin : OktaResponse),
    (∀ r ∈ script.take k, r.status = "MFA_CHALLENGE" ∧ r.factorResult = some "WAITING") →
    script[k]? = some fin → fin.status ≠ "MFA_CHALLENGE" →
    ∃ bodies, pushVerifyLoop t script = some (bodies, fin) ∧
      bodies.length = k + 1 ∧
      bodies.map (fun b => b.stateToken) = t :: (script.take k).map (fun r => r.stateToken) := by
  induction k with
  | zero =>
    intro t script fin hpre hk hfin
    cases script with
    | nil => simp at hk
    | cons r rest =>
      simp only [List.getElem?_cons_zero, Option.some_inj] at hk
      subst hk
      refine ⟨[{ stateToken := t, rememberDevice := some true }], ?_, rfl, by simp⟩
      simp [pushVerifyLoop, hfin]
  | succ k ih =>
    intro t script fin hpre hk hfin
    cases script with
    | nil => simp at hk
    | cons r rest =>
      simp only [List.getElem?_cons_succ] at hk
      have hr := hpre r (by simp)
      have hrest : ∀ r' ∈ rest.take k, r'.status = "MFA_CHALLENGE" ∧ r'.factorResult = some "WAITING" := by
        intro r' hr'
        exact hpre r' (by simp [List.take_succ_cons]; exact Or.inr hr')
      obtain ⟨bodies', hloop, hlen, hmap⟩ := ih r.stateToken rest fin hrest hk hfin
      refine ⟨{ stateToken := t, rememberDevice := some true } :: bodies', ?_, by simp [hlen], ?_⟩
      · simp [pushVerifyLoop, hr.1, hr.2, hloop]
      · simp [List.take_succ_cons, hmap]

theorem pushVerifyLoop_violation (k : Nat) :
    ∀ (t : String) (script : List OktaResponse) (r : OktaResponse),
    (∀ r' ∈ script.take k, r'.status = "MFA_CHALLENGE" ∧ r'.factorResult = some "WAITING") →
    script[k]? = some r → r.status = "MFA_CHALLENGE" → r.factorResult ≠ some "WAITING" →
    pushVerifyLoop t script = none := by
  induction k with
  | zero =>
    intro t script r hpre hk hch hres
    cases script with
    | nil => simp at hk
    | cons r0 rest =>
      simp only [List.getElem?_cons_zero, Option.some_inj] at hk
      subst hk
      simp [pushVerifyLoop, hch, hres]
  | succ k ih =>
    intro t script r hpre hk hch hres
    cases script with
    | nil => simp at hk
    | cons r0 rest =>
      simp only [List.getElem?_cons_succ] at hk
      have hr0 := hpre r0 (by simp)
      have hrest : ∀ r' ∈ rest.take k, r'.status = "MFA_CHALLENGE" ∧ r'.factorResult = some "WAITING" := by
        intro r' hr'
        exact hpre r' (by simp [List.take_succ_cons]; exact Or.inr hr')
      simp [pushVerifyLoop, hr0.1, hr0.2, ih r0.stateToken rest r hrest hk hch hres]

/-- C2: the push loop POSTs the verify endpoint with the current state
token until the status leaves `MFA_CHALLENGE` (k waiting challenges then
a non-challenge make k+1 calls ending on that response); a challenge
whose factor result is not `WAITING` fails the engine; and the scripted
run challenge/waiting twice then success issues exactly three verify
calls and returns the session token. -/
theorem claim_C2_push_polling :
    (∀ (k : Nat) (t : String) (script : List OktaResponse) (fin : OktaResponse),
      (∀ r ∈ script.take k, r.status = "MFA_CHALLENGE" ∧ r.factorResult = some "WAITING") →
      script[k]? = some fin → fin.status ≠ "MFA_CHALLENGE" →
      ∃ bodies, pushVerifyLoop t script = some (bodies, fin) ∧
        bodies.length = k + 1 ∧
        bodies.map (fun b => b.stateToken) = t :: (script.take k).map (fun r => r.stateToken)) ∧
    (∀ (k : Nat) (t : String) (script : List OktaResponse) (r : OktaResponse),
      (∀ r' ∈ script.take k, r'.status = "MFA_CHALLENGE" ∧ r'.factorResult = some "WAITING") →
      script[k]? = some r → r.status = "MFA_CHALLENGE" → r.factorResult ≠ some "WAITING" →
      pushVerifyLoop t script = none) ∧
    okta_auth none "" pushMfaResp [challengeWaiting "t1", challengeWaiting "t2", successResp] =
      (.ok "tok",
       [{ stateToken := "t0", rememberDevice := some true },
        { stateToken := "t1", rememberDevice := some true },
        { stateToken := "t2", rememberDevice := some true }]) :=
  ⟨pushVerifyLoop_run, pushVerifyLoop_violation, by decide⟩

/-- C2 witness: the loop characterization at k = 0 on a one-response
script. -/
theorem claim_C2_witness :
    ∃ bodies, pushVerifyLoop "t0" [successResp] = some (bodies, successResp) ∧
      bodies.length = 1 ∧
      bodies.map (fun b => b.stateToken) = "t0" :: ([successResp].take 0).map (fun r => r.stateToken) :=
  claim_C2_push_polling.1 0 "t0" [successResp] successResp (by simp) (by decide) (by decide)

theorem pushVerifyLoop_rememberDevice :
    ∀ (script : List OktaResponse) (t : String) (bs : List VerifyBody) (fin : OktaResponse),
      pushVerifyLoop t script = some (bs, fin) → ∀ b ∈ bs, b.rememberDevice = some true := by
  intro script
  induction script with
  | nil => intro t bs fin h; simp [pushVerifyLoop] at h
  | cons r rest ih =>
    intro t bs fin h
    simp only [pushVerifyLoop] at h
    by_cases h1 : r.status == "MFA_CHALLENGE"
    · rw [if_pos h1] at h
      by_cases h2 : r.factorResult == some "WAITING"
      · rw [if_pos h2] at h
        cases hrec : pushVerifyLoop r.stateToken rest with
        | none => rw [hrec] at h; simp at h
        | some pr =>
          obtain ⟨bs', fin'⟩ := pr
          rw [hrec] at h
          simp only [Option.some_inj, Prod.mk.injEq] at h
          obtain ⟨hbs, hfin⟩ := h
          subst hbs
          intro b hb
          rcases List.mem_cons.1 hb with rfl | hb
          · rfl
          · exact ih r.stateToken bs' fin' (by rw [hrec, hfin]) b hb
      · rw [if_neg h2] at h; simp at h
    · rw [if_neg h1] at h
      simp only [Option.some_inj, Prod.mk.injEq] at h
      obtain ⟨hbs, _⟩ := h
      subst hbs
      intro b hb
      rcases List.mem_cons.1 hb with rfl | hb
      · rfl
      · simp at hb

/-- C9: every push verify body carries `rememberDevice = true` besides
the state token, while no sms or token verify body carries a
`rememberDevice` field at all. -/
theorem claim_C9_rememberDevice :
    (∀ (t : String) (script : List OktaResponse) (bs : List VerifyBody) (fin : OktaResponse),
      pushVerifyLoop t script = some (bs, fin) → ∀ b ∈ bs, b.rememberDevice = some true) ∧
    (∀ (t c : String) (script : List OktaResponse) (bs : List VerifyBody) (fin : OktaResponse),
      smsVerify t c script = some (bs, fin) → ∀ b ∈ bs, b.rememberDevice = none) ∧
    (∀ (t c : String) (script : List OktaResponse) (bs : List VerifyBody) (fin : OktaResponse),
      tokenVerify t c script = some (bs, fin) → ∀ b ∈ bs, b.rememberDevice = none) := by
  refine ⟨fun t script => pushVerifyLoop_rememberDevice script t, ?_, ?_⟩ <;>
  · intro t c script bs fin h
    match script with
    | [] => simp [smsVerify, tokenVerify] at h
    | [r1] => simp [smsVerify, tokenVerify] at h
    | r1 :: r2 :: rest =>
      simp only [smsVerify, tokenVerify] at h
      by_cases h1 : r1.status == "MFA_CHALLENGE"
      · rw [if_pos h1] at h
        simp only [Option.some_inj, Prod.mk.injEq] at h
        obtain ⟨hbs, _⟩ := h
        subst hbs
        intro b hb
        rcases List.mem_cons.1 hb with rfl | hb
        · rfl
        · rcases List.mem_cons.1 hb with rfl | hb
          · rfl
          · simp at hb
      · rw [if_neg h1] at h; simp at h

/-- C9 witness: a push run and an sms run. -/
theorem claim_C9_witness :
    (∀ b ∈ [({ stateToken := "t0", rememberDevice := some true } : VerifyBody)],
      b.rememberDevice = some true) ∧
    (∀ b ∈ [({ stateToken := "t0" } : VerifyBody),
            ({ stateToken := "c1", passCode := some "123" } : VerifyBody)],
      b.rememberDevice = none) :=
  ⟨claim_C9_rememberDevice.1 "t0" [successResp] _ successResp (by decide),
   claim_C9_rememberDevice.2.1 "t0" "123" [challengeWaiting "c1", successResp] _ successResp (by decide)⟩

theorem dictGet_dinsert (m : List (String × String)) (k v n : String) :
    dictGet (dinsert m k v) n = if k == n then some v else dictGet m n := by
  induction m with
  | nil =>
    simp only [dinsert, dictGet, List.find?]
    by_cases h : k == n
    · simp [h]
    · simp [h]
  | cons kv rest ih =>
    obtain ⟨k', v'⟩ := kv
    simp only [dinsert]
    by_cases h1 : k' == k
    · have : k' = k := by simpa using h1
      subst this
      simp only [if_pos h1, dictGet, List.find?]
      by_cases h2 : k' == n
      · simp [h2]
      · simp [h2, dictGet]
    · simp only [if_neg h1, dictGet, List.find?]
      by_cases h2 : k' == n
      · have : k' = n := by simpa using h2
        subst this
        have : ¬(k == k') := by
          intro hc
          exact h1 (by simpa using (by simpa using hc : k = k').symm)
        simp [h2, this, dictGet]
      · simpa [h2, dictGet] using ih

theorem lookupLast_cons (p : String × String) (pairs : List (String × String)) (n : String) :
    lookupLast (p :: pairs) n =
      (lookupLast pairs n).or (if p.1 == n then some p.2 else none) := by
  simp only [lookupLast, List.reverse_cons, List.find?_append]
  by_cases h : p.1 == n
  · simp only [List.find?_cons, h, cond_true]
    cases List.find? (fun kv => kv.1 == n) pairs.reverse <;> simp [h]
  · simp only [List.find?_cons, h, cond_false]
    cases List.find? (fun kv => kv.1 == n) pairs.reverse <;> simp [h]

theorem inputsDict_get :
    ∀ (inputs : List Html) (acc d pairs : List (String × String)),
      inputsDict acc inputs = some d → inputPairs inputs = some pairs → ∀ n,
      dictGet d n = (lookupLast pairs n).or (dictGet acc n) := by
  intro inputs
  induction inputs with
  | nil =>
    intro acc d pairs h hp n
    simp only [inputsDict, Option.some_inj] at h
    simp only [inputPairs, Option.some_inj] at hp
    subst h
    subst hp
    simp [lookupLast]
  | cons inp rest ih =>
    intro acc d pairs h hp n
    simp only [inputsDict] at h
    simp only [inputPairs] at hp
    cases hn : getAttr inp.attrs "name" with
    | none => rw [hn] at h; simp at h
    | some nm =>
      cases hv : getAttr inp.attrs "value" with
      | none => rw [hn, hv] at h; simp at h
      | some v =>
        rw [hn, hv] at h
        rw [hn, hv] at hp
        cases hrest : inputPairs rest with
        | none => rw [hrest] at hp; simp at hp
        | some pairs' =>
          rw [hrest] at hp
          simp only [Option.map_some', Option.some_inj] at hp
          subst hp
          rw [ih (dinsert acc nm v) d pairs' h hrest n, lookupLast_cons, dictGet_dinsert]
          cases lookupLast pairs' n <;> by_cases hc : (nm == n) <;> simp_all

theorem inputsDict_isSome :
    ∀ (inputs : List Html) (acc : List (String × String)),
      (inputsDict acc inputs).isSome = true ↔
      ∀ inp ∈ inputs,
        (getAttr inp.attrs "name").isSome = true ∧ (getAttr inp.attrs "value").isSome = true := by
  intro inputs
  induction inputs with
  | nil => intro acc; simp [inputsDict]
  | cons inp rest ih =>
    intro acc
    simp only [inputsDict]
    cases hn : getAttr inp.attrs "name" with
    | none => simp [hn]
    | some nm =>
      cases hv : getAttr inp.attrs "value" with
      | none => simp [hn, hv]
      | some v => simp [hn, hv, ih]

theorem inputPairs_isSome :
    ∀ (inputs : List Html),
      (inputPairs inputs).isSome = true ↔
      ∀ inp ∈ inputs,
        (getAttr inp.attrs "name").isSome = true ∧ (getAttr inp.attrs "value").isSome = true := by
  intro inputs
  induction inputs with
  | nil => simp [inputPairs]
  | cons inp rest ih =>
    simp only [inputPairs]
    cases hn : getAttr inp.attrs "name" with
    | none => simp [hn]
    | some nm =>
      cases hv : getAttr inp.attrs "value" with
      | none => simp [hn, hv]
      | some v => simp [hn, hv, ih]

theorem extract_form_eq (doc : Html) :
    extract_form doc = (findForm doc).bind (fun form =>
      (getAttr form.attrs "action").bind (fun action =>
        (inputsDict [] (directInputs form)).bind (fun fields => some (action, fields)))) := rfl

/-- C3 (amended): for a document whose first form has an `action` and
whose *direct child* inputs all carry `name` and `value`, `extract_form`
returns that action and exactly the inputs' name-value pairs, a later
duplicate name overriding an earlier one (last-write-wins). -/
theorem claim_C3_extract_form :
    ∀ (doc form : Html) (action : String) (pairs : List (String × String)),
      findForm doc = some form →
      getAttr form.attrs "action" = some action →
      inputPairs (directInputs form) = some pairs →
      ∃ fields, extract_form doc = some (action, fields) ∧
        ∀ n, dictGet fields n = lookupLast pairs n := by
  intro doc form action pairs hform haction hpairs
  have hsome : (inputsDict [] (directInputs form)).isSome = true :=
    (inputsDict_isSome (directInputs form) []).2
      ((inputPairs_isSome (directInputs form)).1 (by simp [hpairs]))
  obtain ⟨fields, hfields⟩ := Option.isSome_iff_exists.1 hsome
  refine ⟨fields, ?_, ?_⟩
  · rw [extract_form_eq, hform, Option.some_bind, haction, Option.some_bind, hfields,
      Option.some_bind]
  · intro n
    have := inputsDict_get (directInputs form) [] fields pairs hfields hpairs n
    simpa [dictGet] using this

/-- C3 witness: extraction over a form with a duplicated `x` input. -/
theorem claim_C3_witness :
    ∃ fields, extract_form c3DupDoc = some ("/submit", fields) ∧
      ∀ n, dictGet fields n = lookupLast [("x", "1"), ("x", "2"), ("y", "3")] n :=
  claim_C3_extract_form c3DupDoc c3Form "/submit" [("x", "1"), ("x", "2"), ("y", "3")]
    (by simp [c3DupDoc, findForm, findTagList, c3Form, Html.children])
    (by decide)
    (by decide)

/-- C3 counterexample: in `c3NestedDoc` the first form's only input sits
inside a `div`; extraction succeeds with an *empty* mapping, refuting
"a mapping from each descendant input's name to its value". -/
theorem claim_C3_counterexample :
    extract_form c3NestedDoc = some ("/a", []) ∧ dictGet [] "x" = none := by
  constructor
  · rw [extract_form_eq]
    simp [c3NestedDoc, findForm, findTagList, directInputs, inputsDict, getAttr, Html.children,
      Html.attrs, Html.tag]
  · decide

/-- C10: if any direct input of the first form lacks `name` or `value`
the extraction fails (the lookup is partial, nothing is skipped or
defaulted), and extraction succeeds only when every direct input carries
both attributes. -/
theorem claim_C10_partial_inputs :
    (∀ (doc form : Html), findForm doc = some form →
      (∃ inp ∈ directInputs form,
        getAttr inp.attrs "name" = none ∨ getAttr inp.attrs "value" = none) →
      extract_form doc = none) ∧
    (∀ (doc : Html) (action : String) (fields : List (String × String)),
      extract_form doc = some (action, fields) →
      ∃ form, findForm doc = some form ∧
        ∀ inp ∈ directInputs form,
          (getAttr inp.attrs "name").isSome = true ∧ (getAttr inp.attrs "value").isSome = true) := by
  constructor
  · intro doc form hform ⟨inp, hmem, hbad⟩
    rw [extract_form_eq, hform, Option.some_bind]
    cases haction : getAttr form.attrs "action" with
    | none => rfl
    | some action =>
      rw [Option.some_bind]
      cases hin : inputsDict [] (directInputs form) with
      | none => rfl
      | some d =>
        exfalso
        have := (inputsDict_isSome (directInputs form) []).1 (by simp [hin]) inp hmem
        rcases hbad with hb | hb <;> rw [hb] at this <;> simp at this
  · intro doc action fields hx
    rw [extract_form_eq] at hx
    cases hform : findForm doc with
    | none => rw [hform] at hx; simp at hx
    | some form =>
      rw [hform, Option.some_bind] at hx
      refine ⟨form, rfl, ?_⟩
      cases haction : getAttr form.attrs "action" with
      | none => rw [haction] at hx; simp at hx
      | some a =>
        rw [haction, Option.some_bind] at hx
        cases hin : inputsDict [] (directInputs form) with
        | none => rw [hin] at hx; simp at hx
        | some d =>
          exact (inputsDict_isSome (directInputs form) []).1 (by simp [hin])

/-- C10 witness: an input with a `value` but no `name`. -/
theorem claim_C10_witness :
    extract_form (.elem "html" []
      [.elem "form" [("action", "/a")] [.elem "input" [("value", "1")] []]]) = none :=
  claim_C10_partial_inputs.1
    (.elem "html" [] [.elem "form" [("action", "/a")] [.elem "input" [("value", "1")] []]])
    (.elem "form" [("action", "/a")] [.elem "input" [("value", "1")] []])
    (by simp [findForm, findTagList, Html.children])
    ⟨.elem "input" [("value", "1")] [], by simp [directInputs, Html.children, Html.tag],
      Or.inl (by decide)⟩

theorem prelogin_eq (parseHtml : List Nat → Option Html) (r : PreloginResponse) :
    prelogin parseHtml r = (check r.ok).bind (fun _ => r.xml.bind (fun x =>
      (findChildXml x "saml-request").bind (fun el => el.text.bind (fun txt =>
        (b64decode txt).bind (fun bytes => (parseHtml bytes).bind (fun html =>
          (extract_form html).bind (fun af =>
            if (dictGet af.2 "SAMLRequest").isSome then
              some (af.1 ++ "?" ++ urlencode af.2)
            else none))))))) := rfl

/-- C4: `prelogin` returns a URL exactly when every stage succeeds — the
HTTP check, the outer XML with a `saml-request` element and text, the
base64 decode, the HTML parse, the form extraction, and the presence of
the `SAMLRequest` field — and the URL is the form action with the
URL-encoded fields as query string; any failure aborts with `none`. -/
theorem claim_C4_prelogin_pipeline :
    ∀ (parseHtml : List Nat → Option Html) (r : PreloginResponse) (u : String),
      prelogin parseHtml r = some u ↔
      ∃ (x el : Xml) (txt : String) (bytes : List Nat) (html : Html)
        (action : String) (fields : List (String × String)),
        r.ok = true ∧ r.xml = some x ∧ findChildXml x "saml-request" = some el ∧
        el.text = some txt ∧ b64decode txt = some bytes ∧ parseHtml bytes = some html ∧
        extract_form html = some (action, fields) ∧
        (dictGet fields "SAMLRequest").isSome = true ∧
        u = action ++ "?" ++ urlencode fields := by
  intro parseHtml r u
  rw [prelogin_eq]
  constructor
  · intro h
    simp only [Option.bind_eq_some] at h
    obtain ⟨un, hck, x, hx, el, hel, txt, htxt, bytes, hb, html, hh, af, hef, hfin⟩ := h
    have hok : r.ok = true := by
      cases hokk : r.ok
      · rw [hokk] at hck; simp [check] at hck
      · rfl
    obtain ⟨action, fields⟩ := af
    by_cases hs : (dictGet fields "SAMLRequest").isSome = true
    · rw [if_pos hs] at hfin
      exact ⟨x, el, txt, bytes, html, action, fields, hok, hx, hel, htxt, hb, hh, hef, hs,
        (Option.some_inj.1 hfin).symm⟩
    · rw [if_neg hs] at hfin
      simp at hfin
  · rintro ⟨x, el, txt, bytes, html, action, fields, hok, hx, hel, htxt, hb, hh, hef, hs, hu⟩
    rw [hok, hx]
    simp [check, hel, htxt, hb, hh, hef, hs, hu]

/-- C4 witness: a concrete successful prelogin round trip. -/
theorem claim_C4_witness :
    prelogin (fun _ => some c4Html) c4Resp = some "https://idp.example/sso?SAMLRequest=abc" :=
  (claim_C4_prelogin_pipeline (fun _ => some c4Html) c4Resp
      "https://idp.example/sso?SAMLRequest=abc").2
    ⟨c4Xml, .elem "saml-request" (some "AAAA") [], "AAAA", [0, 0, 0], c4Html,
      "https://idp.example/sso", [("SAMLRequest", "abc")],
      rfl, rfl, rfl, rfl, by decide,
      rfl,
      by rw [extract_form_eq]
         simp [c4Html, findForm, findTagList, Html.children, directInputs, inputsDict,
           getAttr, Html.attrs, Html.tag, dinsert],
      by decide, by decide⟩

theorem complete_saml_eq (r : SamlResponse) :
    complete_saml r = (check r.ok).bind (fun _ =>
      (headerGet r.headers "saml-username").bind (fun u =>
        (headerGet r.headers "prelogin-cookie").bind (fun c => some (u, c)))) := rfl

theorem mainHandoff_eq (g : String) (sd : Bool) (r : SamlResponse) (e : Int) :
    mainHandoff g sd r e = (complete_saml r).bind (fun uc =>
      some { args := subprocessArgs g uc.1 sd,
             trace := supervisorTrace [.writeStdin (utf8Bytes uc.2)],
             exitCode := e }) := rfl

/-- C6: `complete_saml` returns the pair of the `saml-username` and
`prelogin-cookie` header values; if either header is absent it fails,
and on a failed completion the supervisor is never invoked. -/
theorem claim_C6_completion_headers :
    (∀ (r : SamlResponse) (u c : String),
      r.ok = true → headerGet r.headers "saml-username" = some u →
      headerGet r.headers "prelogin-cookie" = some c →
      complete_saml r = some (u, c)) ∧
    (∀ r : SamlResponse,
      headerGet r.headers "saml-username" = none ∨
      headerGet r.headers "prelogin-cookie" = none →
      complete_saml r = none) ∧
    (∀ (g : String) (sd : Bool) (r : SamlResponse) (e : Int),
      complete_saml r = none → mainHandoff g sd r e = none) := by
  refine ⟨?_, ?_, ?_⟩
  · intro r u c hok hu hc
    rw [complete_saml_eq, hok]
    simp [check, hu, hc]
  · intro r hbad
    rw [complete_saml_eq]
    cases hok : r.ok
    · simp [check]
    · rcases hbad with hb | hb
      · simp [check, hb]
      · cases hu : headerGet r.headers "saml-username"
        · simp [check, hu]
        · simp [check, hu, hb]
  · intro g sd r e h
    rw [mainHandoff_eq, h]
    rfl

/-- C6 witness: both headers present; then the cookie header missing. -/
theorem claim_C6_witness :
    complete_saml c6Resp = some ("alice", "cookie123") ∧
    complete_saml c6BadResp = none ∧
    mainHandoff "gw" false c6BadResp 0 = none :=
  ⟨claim_C6_completion_headers.1 c6Resp "alice" "cookie123" rfl (by decide) (by decide),
   claim_C6_completion_headers.2.1 c6BadResp (Or.inr (by decide)),
   claim_C6_completion_headers.2.2 "gw" false c6BadResp 0
     (claim_C6_completion_headers.2.1 c6BadResp (Or.inr (by decide)))⟩

/-- C7: the supervised region performs, in strict order, block-SIGTERM,
spawn-child-with-pre-block-mask-restored-in-child, install-forwarding-
handler, unblock; and a SIGTERM arriving anywhere between the block and
the unblock (in particular between spawn and handler installation) is
deferred, delivered to the forwarding handler (the child receives the
terminate request) and never acted on before the handler exists. -/
theorem claim_C7_signal_discipline :
    (∀ body : List Ev, supervisorTrace body =
      .blockSig :: .spawnChild true :: .installForward :: .setMaskOld ::
        (body ++ [.closeStdin, .waitChild, .reblockSig, .restoreHandler, .restoreMaskFinal])) ∧
    (∀ (bs : List Nat) (i : Nat), 1 ≤ i → i ≤ 3 →
      (sigRun (insertEv i .sigArrive (supervisorTrace [.writeStdin bs]))).childTerminated = true ∧
      (sigRun (insertEv i .sigArrive (supervisorTrace [.writeStdin bs]))).defaultFired = false) := by
  refine ⟨fun body => rfl, ?_⟩
  intro bs i h1 h3
  interval_cases i <;>
    simp [insertEv, supervisorTrace, sigRun, sigStep, sigInit, deliver]

/-- C7 witness: arrival between spawn and handler installation. -/
theorem claim_C7_witness :
    (sigRun (insertEv 2 .sigArrive (supervisorTrace [.writeStdin [99]]))).childTerminated = true ∧
    (sigRun (insertEv 2 .sigArrive (supervisorTrace [.writeStdin [99]]))).defaultFired = false :=
  claim_C7_signal_discipline.2 [99] 2 (by decide) (by decide)

/-- C8: a successful login invokes the VPN client with
`--user=<samlUsername>` among the `openconnect` arguments, writes the
prelogin cookie's raw UTF-8 bytes as the single stdin write with no
trailing framing, closes stdin only after that write, and propagates the
child's exit code verbatim. -/
theorem claim_C8_credential_handoff :
    ∀ (g : String) (sd : Bool) (r : SamlResponse) (u c : String) (e : Int),
      complete_saml r = some (u, c) →
      ∃ inv, mainHandoff g sd r e = some inv ∧
        inv.args = subprocessArgs g u sd ∧
        ("--user=" ++ u) ∈ inv.args ∧
        stdinWrites inv.trace = [utf8Bytes c] ∧
        (∃ pre post, inv.trace = pre ++ .closeStdin :: post ∧
          .writeStdin (utf8Bytes c) ∈ pre ∧
          ∀ e' ∈ post, ∀ bs, e' ≠ .writeStdin bs) ∧
        inv.exitCode = e := by
  intro g sd r u c e h
  rw [mainHandoff_eq, h]
  refine ⟨_, rfl, rfl, ?_, ?_, ?_, rfl⟩
  · cases sd <;> simp [subprocessArgs]
  · simp [stdinWrites, supervisorTrace]
  · refine ⟨[.blockSig, .spawnChild true, .installForward, .setMaskOld,
      .writeStdin (utf8Bytes c)],
      [.waitChild, .reblockSig, .restoreHandler, .restoreMaskFinal], ?_, by simp, ?_⟩
    · simp [supervisorTrace]
    · intro e' he' bs
      fin_cases he' <;> simp

/-- C8 witness: the handoff for alice/cookie123 with child exit 3. -/
theorem claim_C8_witness :
    ∃ inv, mainHandoff "vpn.example.com" false c6Resp 3 = some inv ∧
      inv.args = subprocessArgs "vpn.example.com" "alice" false ∧
      ("--user=" ++ "alice") ∈ inv.args ∧
      stdinWrites inv.trace = [utf8Bytes "cookie123"] ∧
      (∃ pre post, inv.trace = pre ++ .closeStdin :: post ∧
        .writeStdin (utf8Bytes "cookie123") ∈ pre ∧
        ∀ e' ∈ post, ∀ bs, e' ≠ .writeStdin bs) ∧
      inv.exitCode = 3 :=
  claim_C8_credential_handoff "vpn.example.com" false c6Resp "alice" "cookie123" 3 (by decide)

